import Mathlib

/-
Verification of the sitemap crawler (src/main.go) against its specification.

The Go program is shallowly embedded:
- response bodies and documents are byte lists (Bytes := List Nat);
- external collaborators (the HTTP transport, gzip, encoding/xml, the
  golang.org/x/net/html parser) are oracles collected in an Env record;
- the program's own logic (makeRequest's gzip dispatch, sanitizeXML,
  extractURLsFromXML, parseHTML's DFS walk, the worker loop, crawlSiteMap)
  is translated function by function;
- the unbounded recursion of extractURLsFromXML is made total with a fuel
  parameter (the Go code has no depth limit); fuel exhaustion is Option.none.
-/

namespace Crawler

/-- Byte strings, as the Go code's byte slices. -/
abbrev Bytes := List Nat

/-!
## Sanitizer (src/main.go, sanitizeXML)

sanitizeXML runs two passes of bytes.ReplaceAll:
  b = bytes.ReplaceAll(b, []byte("&"), []byte("&amp;"))
  b = bytes.ReplaceAll(b, []byte("&amp;amp;"), []byte("&amp;"))
Byte values: 38 = ampersand, 97 = a, 109 = m, 112 = p, 59 = semicolon.
replaceAll embeds the generic library call; escapeAmp and collapseAmp are the
two calls specialized to their concrete patterns, proved equal to replaceAll
below (replaceAllAmpEq, replaceAllAmp9Eq, sanitizeXMLAsReplaceAll).
-/

/-- Embeds bytes.ReplaceAll(s, pat, rep) from the Go standard library: scan left
to right, replace each non-overlapping occurrence of pat, continue after the
replacement.  The guard pat is nonempty at both call sites of sanitizeXML. -/
def replaceAll (pat rep : Bytes) (s : Bytes) : Bytes :=
  match s with
  | [] => []
  | c :: rest =>
    if h : pat.isPrefixOf (c :: rest) = true ∧ pat ≠ [] then
      rep ++ replaceAll pat rep ((c :: rest).drop pat.length)
    else
      c :: replaceAll pat rep rest
termination_by s.length
decreasing_by
  · have hl : 0 < pat.length := List.length_pos.mpr h.2
    simp only [List.length_drop, List.length_cons]
    omega
  · simp only [List.length_cons]
    omega

/-- First pass of sanitizeXML: bytes.ReplaceAll(b, "&", "&amp;"),
specialized to its concrete one-byte pattern. -/
def escapeAmp : Bytes → Bytes
  | [] => []
  | c :: rest =>
    if c = 38 then 38 :: 97 :: 109 :: 112 :: 59 :: escapeAmp rest
    else c :: escapeAmp rest

/-- Second pass of sanitizeXML: bytes.ReplaceAll(b, "&amp;amp;", "&amp;"),
specialized to its concrete nine-byte pattern. -/
def collapseAmp : Bytes → Bytes
  | 38 :: 97 :: 109 :: 112 :: 59 :: 97 :: 109 :: 112 :: 59 :: rest =>
    38 :: 97 :: 109 :: 112 :: 59 :: collapseAmp rest
  | c :: rest => c :: collapseAmp rest
  | [] => []

/-- sanitizeXML from src/main.go: escape every ampersand, then collapse the
double escapes this creates.  Equal to the two generic ReplaceAll calls of the
source by sanitizeXMLAsReplaceAll below. -/
def sanitizeXML (b : Bytes) : Bytes := collapseAmp (escapeAmp b)

theorem collapseAmp_amp9 (r : Bytes) :
    collapseAmp (38 :: 97 :: 109 :: 112 :: 59 :: 97 :: 109 :: 112 :: 59 :: r) =
      38 :: 97 :: 109 :: 112 :: 59 :: collapseAmp r := rfl

set_option maxHeartbeats 1000000 in
theorem collapseAmp_cons (c : Nat) (r : Bytes)
    (h : ∀ t, c :: r ≠ 38 :: 97 :: 109 :: 112 :: 59 :: 97 :: 109 :: 112 :: 59 :: t) :
    collapseAmp (c :: r) = c :: collapseAmp r := by
  conv_lhs => rw [collapseAmp.eq_def]
  split
  · next t heq => exact absurd heq (h t)
  · next x cc rr hnc heq =>
    injection heq with h1 h2
    rw [h1, h2]
  · next x heq => exact absurd heq (List.cons_ne_nil c r)

theorem collapseAmp_cons_ne38 (c : Nat) (r : Bytes) (h : c ≠ 38) :
    collapseAmp (c :: r) = c :: collapseAmp r := by
  refine collapseAmp_cons c r (fun t heq => ?_)
  injection heq with h1 _
  exact h h1

/-- The invariant preserved by the sanitizer: every ampersand byte is
immediately followed by the bytes of "amp;". -/
def Escaped : Bytes → Prop
  | [] => True
  | c :: rest => (c = 38 → rest.take 4 = [97, 109, 112, 59]) ∧ Escaped rest

theorem take4_shape (l : Bytes) (h : l.take 4 = [97, 109, 112, 59]) :
    ∃ t, l = 97 :: 109 :: 112 :: 59 :: t := by
  match l with
  | [] => simp at h
  | [a] => simp at h
  | [a, b] => simp at h
  | [a, b, c] => simp at h
  | a :: b :: c :: d :: t =>
    simp [List.take] at h
    obtain ⟨h1, h2, h3, h4⟩ := h
    exact ⟨t, by simp [h1, h2, h3, h4]⟩

theorem escaped_amp_head (rest : Bytes) (h : Escaped (38 :: rest)) :
    ∃ t, rest = 97 :: 109 :: 112 :: 59 :: t ∧ Escaped t := by
  obtain ⟨h1, h2⟩ := h
  obtain ⟨t, ht⟩ := take4_shape rest (h1 rfl)
  subst ht
  exact ⟨t, rfl, h2.2.2.2.2⟩

/-- The first pass establishes the invariant. -/
theorem escapeAmp_escaped (s : Bytes) : Escaped (escapeAmp s) := by
  induction s with
  | nil => trivial
  | cons c rest ih =>
    by_cases h : c = 38
    · subst h
      simp only [escapeAmp, if_pos rfl]
      exact ⟨fun _ => rfl, ⟨by simp, ⟨by simp, ⟨by simp, ⟨by simp, ih⟩⟩⟩⟩⟩
    · simp only [escapeAmp, if_neg h]
      exact ⟨fun hc => absurd hc h, ih⟩

/-- The second pass preserves the invariant (strong induction on length). -/
theorem collapseAmp_escaped_aux :
    ∀ (n : Nat) (w : Bytes), w.length ≤ n → Escaped w → Escaped (collapseAmp w) := by
  intro n
  induction n with
  | zero =>
    intro w hlen _
    have : w = [] := List.length_eq_zero.mp (Nat.le_zero.mp hlen)
    subst this
    trivial
  | succ n ih =>
    intro w hlen hesc
    match w with
    | [] => trivial
    | c :: rest =>
      by_cases hm : ∃ t, c :: rest = 38 :: 97 :: 109 :: 112 :: 59 :: 97 :: 109 :: 112 :: 59 :: t
      · obtain ⟨t, ht⟩ := hm
        rw [ht] at hesc hlen ⊢
        rw [collapseAmp_amp9]
        have hesc' : Escaped t := by
          obtain ⟨-, h⟩ := hesc
          exact h.2.2.2.2.2.2.2.2
        have hlen' : t.length ≤ n := by simp at hlen; omega
        refine ⟨fun _ => rfl, by simp, by simp, by simp, by simp, ?_⟩
        exact ih t hlen' hesc'
      · push_neg at hm
        rw [collapseAmp_cons c rest hm]
        obtain ⟨h1, h2⟩ := hesc
        have hlen' : rest.length ≤ n := by simp at hlen; omega
        refine ⟨?_, ih rest hlen' h2⟩
        intro hc
        subst hc
        obtain ⟨t, ht, -⟩ := escaped_amp_head rest ⟨h1, h2⟩
        subst ht
        rw [collapseAmp_cons_ne38 97 _ (by omega), collapseAmp_cons_ne38 109 _ (by omega),
          collapseAmp_cons_ne38 112 _ (by omega), collapseAmp_cons_ne38 59 _ (by omega)]
        simp [List.take]

theorem collapseAmp_escaped (w : Bytes) (h : Escaped w) : Escaped (collapseAmp w) :=
  collapseAmp_escaped_aux w.length w le_rfl h

/-- On inputs satisfying the invariant, the whole sanitizer is the identity
(strong induction on length). -/
theorem sanitize_fix_aux :
    ∀ (n : Nat) (w : Bytes), w.length ≤ n → Escaped w → collapseAmp (escapeAmp w) = w := by
  intro n
  induction n with
  | zero =>
    intro w hlen _
    have : w = [] := List.length_eq_zero.mp (Nat.le_zero.mp hlen)
    subst this
    rfl
  | succ n ih =>
    intro w hlen hesc
    match w with
    | [] => rfl
    | c :: rest =>
      by_cases hc : c = 38
      · subst hc
        obtain ⟨t, ht, hesc'⟩ := escaped_amp_head rest hesc
        subst ht
        have hE : escapeAmp (38 :: 97 :: 109 :: 112 :: 59 :: t) =
            38 :: 97 :: 109 :: 112 :: 59 :: 97 :: 109 :: 112 :: 59 :: escapeAmp t := by
          simp [escapeAmp]
        rw [hE, collapseAmp_amp9]
        have hlen' : t.length ≤ n := by simp at hlen; omega
        rw [ih t hlen' hesc']
      · have hE : escapeAmp (c :: rest) = c :: escapeAmp rest := by
          simp [escapeAmp, hc]
        rw [hE, collapseAmp_cons_ne38 c _ hc]
        have hlen' : rest.length ≤ n := by simp at hlen; omega
        rw [ih rest hlen' hesc.2]

theorem sanitize_fix (w : Bytes) (h : Escaped w) : sanitizeXML w = w :=
  sanitize_fix_aux w.length w le_rfl h

/-- The first ReplaceAll call of sanitizeXML equals its specialization. -/
theorem replaceAllAmpEqAux :
    ∀ (n : Nat) (s : Bytes), s.length ≤ n →
      replaceAll [38] [38, 97, 109, 112, 59] s = escapeAmp s := by
  intro n
  induction n with
  | zero =>
    intro s hlen
    have : s = [] := List.length_eq_zero.mp (Nat.le_zero.mp hlen)
    subst this
    rw [replaceAll]
    rfl
  | succ n ih =>
    intro s hlen
    match s with
    | [] =>
      rw [replaceAll]
      rfl
    | c :: rest =>
      rw [replaceAll]
      by_cases hc : c = 38
      · subst hc
        rw [dif_pos ⟨by simp [List.isPrefixOf_cons₂], by simp⟩]
        have hlen' : rest.length ≤ n := by simp at hlen; omega
        simp [ih rest hlen', escapeAmp]
      · rw [dif_neg]
        · have hlen' : rest.length ≤ n := by simp at hlen; omega
          simp [ih rest hlen', escapeAmp, hc]
        · rintro ⟨hpre, -⟩
          rw [List.isPrefixOf_cons₂] at hpre
          simp at hpre
          exact hc hpre.symm

/-- The second ReplaceAll call of sanitizeXML equals its specialization. -/
theorem replaceAllAmp9EqAux :
    ∀ (n : Nat) (s : Bytes), s.length ≤ n →
      replaceAll [38, 97, 109, 112, 59, 97, 109, 112, 59] [38, 97, 109, 112, 59] s =
        collapseAmp s := by
  intro n
  induction n with
  | zero =>
    intro s hlen
    have : s = [] := List.length_eq_zero.mp (Nat.le_zero.mp hlen)
    subst this
    rw [replaceAll]
    rfl
  | succ n ih =>
    intro s hlen
    match s with
    | [] =>
      rw [replaceAll]
      rfl
    | c :: rest =>
      by_cases hm : ∃ t,
          c :: rest = 38 :: 97 :: 109 :: 112 :: 59 :: 97 :: 109 :: 112 :: 59 :: t
      · obtain ⟨t, ht⟩ := hm
        rw [ht, replaceAll]
        rw [dif_pos ⟨List.isPrefixOf_iff_prefix.mpr ⟨t, rfl⟩, by simp⟩]
        have hdrop :
            ((38 :: 97 :: 109 :: 112 :: 59 :: 97 :: 109 :: 112 :: 59 :: t).drop
              (List.length [38, 97, 109, 112, 59, 97, 109, 112, 59])) = t := by
          simp [List.drop]
        rw [hdrop]
        have hlen' : t.length ≤ n := by
          rw [ht] at hlen
          simp at hlen
          omega
        rw [ih t hlen', collapseAmp_amp9]
        simp
      · push_neg at hm
        rw [replaceAll]
        rw [dif_neg]
        · have hlen' : rest.length ≤ n := by simp at hlen; omega
          rw [ih rest hlen', collapseAmp_cons c rest hm]
        · rintro ⟨hpre, -⟩
          obtain ⟨t, ht⟩ := List.isPrefixOf_iff_prefix.mp hpre
          exact hm t ht.symm

/-- sanitizeXML equals the two generic bytes.ReplaceAll passes of the source. -/
theorem sanitizeXMLAsReplaceAll (b : Bytes) :
    sanitizeXML b =
      replaceAll [38, 97, 109, 112, 59, 97, 109, 112, 59] [38, 97, 109, 112, 59]
        (replaceAll [38] [38, 97, 109, 112, 59] b) := by
  rw [replaceAllAmpEqAux b.length b le_rfl,
    replaceAllAmp9EqAux (escapeAmp b).length (escapeAmp b) le_rfl]
  rfl

/-- C4: the sanitizer is idempotent: sanitize(sanitize(x)) = sanitize(x) for
every byte string x, where sanitize replaces every literal ampersand with the
"&amp;" escape and then collapses every resulting "&amp;amp;" to "&amp;". -/
theorem sanitizeXMLIdempotent (b : Bytes) :
    sanitizeXML (sanitizeXML b) = sanitizeXML b := by
  have h1 : Escaped (escapeAmp b) := escapeAmp_escaped b
  have h2 : Escaped (sanitizeXML b) := collapseAmp_escaped _ h1
  exact sanitize_fix _ h2

/-!
## String helpers used by the Go code

strings.HasSuffix(url, ".gz"), strings.Contains(ct, "text/html") and
strings.TrimSpace, embedded on character lists so that they evaluate by rfl.
-/

/-- strings.HasSuffix(url, ".gz") from makeRequest. -/
def hasSuffixGz (url : String) : Bool :=
  [ '.', 'g', 'z' ].isSuffixOf url.toList

/-- Occurrence of pat inside s, scanning left to right (strings.Contains). -/
def containsSeq (pat : List Char) : List Char → Bool
  | [] => pat.isEmpty
  | c :: rest => pat.isPrefixOf (c :: rest) || containsSeq pat rest

/-- strings.Contains(s, pat) from the worker loop. -/
def strContains (s pat : String) : Bool := containsSeq pat.toList s.toList

/-- The ASCII white space bytes trimmed by strings.TrimSpace (the Unicode
cases do not matter for the claims). -/
def isSpaceByte (c : Char) : Bool :=
  c == ' ' || c == '\t' || c == '\n' || c == '\x0b' || c == '\x0c' || c == '\r'

/-- strings.TrimSpace from parseHTML: drop white space from both ends. -/
def trimSpace (s : String) : String :=
  String.mk (((s.toList.dropWhile isSpaceByte).reverse.dropWhile isSpaceByte).reverse)

/-!
## Data model and external oracles

CrawlResult mirrors the struct of src/main.go (Status is 0 only before a
response, and such results are never emitted).  Env packs the external
collaborators: env.http is the raw HTTP layer inside http.Client.Do (none =
transport error), env.gunzip is gzip.NewReader + read (none = decode error),
env.decodeUS / env.decodeSI are xml.Unmarshal into urlSet / siteMapIndex
(none = unmarshal error, some = the list of Loc fields decoded), and
env.parseDoc is html.Parse (none = parse error).
-/

structure CrawlResult where
  url : String
  status : Nat
  title : String
  metaDescription : String
  canonical : String
deriving DecidableEq, Repr

inductive FetchError where
  | network
  | decode
deriving DecidableEq, Repr

inductive XMLError where
  | unsupportedFormat
deriving DecidableEq, Repr

inductive CrawlError where
  | fetch (e : FetchError)
  | xml (e : XMLError)
deriving DecidableEq, Repr

/- An HTML node of golang.org/x/net/html: node type (isElem = true for
ElementNode), Data (tag name for elements, text for text nodes), attributes
(Key, Val) and children (FirstChild / NextSibling chain). -/
mutual
inductive HNode where
  | node (isElem : Bool) (data : String) (attrs : List (String × String))
      (children : HForest)
inductive HForest where
  | nil
  | cons (head : HNode) (tail : HForest)
end

def HNode.getData : HNode → String
  | .node _ d _ _ => d

structure Env where
  http : String → Option (Bytes × String × Nat)
  gunzip : Bytes → Option Bytes
  decodeUS : Bytes → Option (List String)
  decodeSI : Bytes → Option (List String)
  parseDoc : Bytes → Option HNode

/-!
## Transport (src/main.go, makeRequest)
-/

/-- makeRequest from src/main.go: GET the url (none = transport error), then,
only when the url ends in ".gz", pipe the body through gzip (none = decode
error).  Returns body, Content-Type and status code. -/
def makeRequest (env : Env) (url : String) :
    Except FetchError (Bytes × String × Nat) :=
  match env.http url with
  | none => Except.error FetchError.network
  | some (body, ct, st) =>
    if hasSuffixGz url = true then
      match env.gunzip body with
      | none => Except.error FetchError.decode
      | some dec => Except.ok (dec, ct, st)
    else Except.ok (body, ct, st)

/-!
## SitemapResolver (src/main.go, extractURLsFromXML)

The Go function recurses through the network with no depth bound, so the
embedding takes fuel; none = fuel exhausted.  Besides the result it returns
the trace of child sitemap URLs it requested, in request order.
-/

/-- The guard xml.Unmarshal(data, &us) == nil && len(us.URLs) > 0. -/
def usOK (env : Env) (data : Bytes) : Option (List String) :=
  match env.decodeUS data with
  | some locs => if 0 < locs.length then some locs else none
  | none => none

/-- The guard xml.Unmarshal(data, &si) == nil && len(si.Sitemaps) > 0. -/
def siOK (env : Env) (data : Bytes) : Option (List String) :=
  match env.decodeSI data with
  | some sms => if 0 < sms.length then some sms else none
  | none => none

/-- The child loop of the siteMapIndex branch: for each child location fetch
it (a failed fetch is skipped), sanitize it, resolve it through k (a failed
parse is skipped), and append its URLs to the accumulator.  The second
accumulator is the trace of requested child URLs. -/
def childLoop (env : Env)
    (k : Bytes → Option (Except XMLError (List String) × List String)) :
    List String → List String → List String →
      Option (List String × List String)
  | [], urls, tr => some (urls, tr)
  | sm :: rest, urls, tr =>
    match makeRequest env sm with
    | Except.error _ => childLoop env k rest urls (tr ++ [sm])
    | Except.ok (childData, _, _) =>
      match k (sanitizeXML childData) with
      | none => none
      | some (Except.error _, ctr) => childLoop env k rest urls (tr ++ [sm] ++ ctr)
      | some (Except.ok childURLs, ctr) =>
        childLoop env k rest (urls ++ childURLs) (tr ++ [sm] ++ ctr)

/-- extractURLsFromXML from src/main.go: try urlSet first, then siteMapIndex
with the recursive child loop, else the unsupported format error. -/
def extractURLsFromXML (env : Env) :
    Nat → Bytes → Option (Except XMLError (List String) × List String)
  | 0, _ => none
  | fuel + 1, data =>
    match usOK env data with
    | some locs => some (Except.ok locs, [])
    | none =>
      match siOK env data with
      | some sms =>
        (childLoop env (extractURLsFromXML env fuel) sms [] []).map
          (fun p => (Except.ok p.1, p.2))
      | none => some (Except.error XMLError.unsupportedFormat, [])

/-- The URLs one child of a siteMapIndex contributes to the aggregate: none
when its fetch or its parse fails, its own resolved list otherwise. -/
def childContribution (env : Env) (fuel : Nat) (sm : String) : List String :=
  match makeRequest env sm with
  | Except.error _ => []
  | Except.ok (childData, _, _) =>
    match extractURLsFromXML env fuel (sanitizeXML childData) with
    | some (Except.ok childURLs, _) => childURLs
    | _ => []

/-- A child sitemap whose fetch fails, or whose (sanitized) body fails to
resolve. -/
def childFails (env : Env) (fuel : Nat) (sm : String) : Prop :=
  (∃ e, makeRequest env sm = Except.error e) ∨
  (∃ body ct st e ctr, makeRequest env sm = Except.ok (body, ct, st) ∧
    extractURLsFromXML env fuel (sanitizeXML body) = some (Except.error e, ctr))

/-!
## MetadataExtractor (src/main.go, parseHTML)

The walk closure of parseHTML visits every node in depth-first preorder and
mutates (title, metaDesc, canonical) at every title / meta / link element it
passes, so a later match overwrites an earlier one.
-/

/-- The attribute loop of the meta case: one pass over n.Attr computing the
pair (name, content); name is set when a Key "name" / Val "description"
attribute is seen, content whenever a Key "content" attribute is seen. -/
def metaNameContent (attrs : List (String × String)) : String × String :=
  attrs.foldl
    (fun p a =>
      (if a.1 == "name" && a.2 == "description" then a.2 else p.1,
       if a.1 == "content" then a.2 else p.2))
    ("", "")

/-- The nested attribute loops of the link case: for every rel=canonical
attribute, rescan all attributes and take each href value. -/
def linkLoop (attrs : List (String × String)) (canonical : String) : String :=
  attrs.foldl
    (fun c a =>
      if a.1 == "rel" && a.2 == "canonical" then
        attrs.foldl (fun c2 b => if b.1 == "href" then b.2 else c2) c
      else c)
    canonical

/-- The body of the walk closure at one node (before recursing into the
children): the switch on n.Data for element nodes. -/
def visitNode (st : String × String × String) (isElem : Bool) (d : String)
    (attrs : List (String × String)) (ch : HForest) :
    String × String × String :=
  if isElem = true then
    if d = "title" then
      match ch with
      | HForest.nil => st
      | HForest.cons c _ => (trimSpace c.getData, st.2.1, st.2.2)
    else if d = "meta" then
      let nc := metaNameContent attrs
      if nc.1 = "description" then (st.1, nc.2, st.2.2) else st
    else if d = "link" then
      (st.1, st.2.1, linkLoop attrs st.2.2)
    else st
  else st

mutual
/-- walk(n): visit n, then walk every child in order. -/
def walkNode (st : String × String × String) : HNode → String × String × String
  | HNode.node e d a ch => walkForest (visitNode st e d a ch) ch
def walkForest (st : String × String × String) : HForest → String × String × String
  | HForest.nil => st
  | HForest.cons n t => walkForest (walkNode st n) t
end

/-- parseHTML from src/main.go: parse the body (all empty on a parse error)
and walk the tree from the document root. -/
def parseHTML (env : Env) (body : Bytes) : String × String × String :=
  match env.parseDoc body with
  | none => ("", "", "")
  | some doc => walkNode ("", "", "") doc

/-!
## Scheduler (src/main.go, worker) and Orchestrator (crawlSiteMap)

A worker owns the sub-sequence of jobs it receives from the channel; its
per-URL behavior is sequential.  workerRun is the list of results one worker
emits for its jobs, workerTrace the sequence of its observable events
(requesting a fetch, emitting a result tagged with the response content type,
sleeping the politeness delay).
-/

/-- The body of the worker loop for one url: drop the url on a fetch error,
emit a status-only result for non-HTML content, otherwise parse and emit the
full result. -/
def processURL (env : Env) (url : String) : Option CrawlResult :=
  match makeRequest env url with
  | Except.error _ => none
  | Except.ok (body, ct, status) =>
    if strContains ct "text/html" = true then
      some { url := url, status := status, title := (parseHTML env body).1,
             metaDescription := (parseHTML env body).2.1,
             canonical := (parseHTML env body).2.2 }
    else
      some { url := url, status := status, title := "", metaDescription := "",
             canonical := "" }

/-- The results one worker emits for its job list, in order. -/
def workerRun (env : Env) : List String → List CrawlResult
  | [] => []
  | url :: rest =>
    match processURL env url with
    | none => workerRun env rest
    | some r => r :: workerRun env rest

/-- Observable events of one worker: a fetch of a job url, an emitted result
(tagged with the response content type), a politeness sleep. -/
inductive WEvent where
  | fetch (url : String)
  | emit (ct : String) (r : CrawlResult)
  | sleep
deriving DecidableEq, Repr

/-- The event trace of the worker loop: fetch each url; on a fetch error go
straight to the next job; after a non-HTML result likewise; after an HTML
result sleep the 300ms politeness delay (time.Sleep on line 224) before the
next job. -/
def workerTrace (env : Env) : List String → List WEvent
  | [] => []
  | url :: rest =>
    WEvent.fetch url ::
      (match makeRequest env url with
       | Except.error _ => workerTrace env rest
       | Except.ok (body, ct, status) =>
         if strContains ct "text/html" = true then
           WEvent.emit ct
               { url := url, status := status, title := (parseHTML env body).1,
                 metaDescription := (parseHTML env body).2.1,
                 canonical := (parseHTML env body).2.2 } ::
             WEvent.sleep :: workerTrace env rest
         else
           WEvent.emit ct
               { url := url, status := status, title := "",
                 metaDescription := "", canonical := "" } ::
             workerTrace env rest)

/-- crawlSiteMap from src/main.go: fetch the root sitemap (fatal on error),
sanitize, resolve (fatal on error), then crawl every discovered URL through
the worker pool; the pool's aggregate results are modeled in submission
order. -/
def crawlSiteMap (env : Env) (fuel : Nat) (sitemapURL : String) :
    Option (Except CrawlError (List CrawlResult)) :=
  match makeRequest env sitemapURL with
  | Except.error e => some (Except.error (CrawlError.fetch e))
  | Except.ok (data, _, _) =>
    match extractURLsFromXML env fuel (sanitizeXML data) with
    | none => none
    | some (Except.error e, _) => some (Except.error (CrawlError.xml e))
    | some (Except.ok urls, _) => some (Except.ok (workerRun env urls))

/-- The root-level resolve step of crawlSiteMap (lines 233-239): fetch,
sanitize, extract. -/
def resolveURL (env : Env) (fuel : Nat) (url : String) :
    Option (Except CrawlError (List String)) :=
  match makeRequest env url with
  | Except.error e => some (Except.error (CrawlError.fetch e))
  | Except.ok (data, _, _) =>
    (extractURLsFromXML env fuel (sanitizeXML data)).map
      (fun p =>
        match p.1 with
        | Except.ok urls => Except.ok urls
        | Except.error e => Except.error (CrawlError.xml e))

/-!
## Resolver theorems (claims C2, C3, C5, C9)
-/

theorem usOK_some (env : Env) (data : Bytes) (locs : List String)
    (h : env.decodeUS data = some locs) (hne : locs ≠ []) :
    usOK env data = some locs := by
  simp [usOK, h, List.length_pos.mpr hne]

theorem usOK_none (env : Env) (data : Bytes)
    (h : env.decodeUS data = none ∨ env.decodeUS data = some []) :
    usOK env data = none := by
  rcases h with h | h <;> simp [usOK, h]

theorem siOK_some (env : Env) (data : Bytes) (sms : List String)
    (h : env.decodeSI data = some sms) (hne : sms ≠ []) :
    siOK env data = some sms := by
  simp [siOK, h, List.length_pos.mpr hne]

theorem siOK_none (env : Env) (data : Bytes)
    (h : env.decodeSI data = none ∨ env.decodeSI data = some []) :
    siOK env data = none := by
  rcases h with h | h <;> simp [siOK, h]

/-- C2: a document that decodes as a urlSet with at least one location wins:
extractURLsFromXML returns exactly those locations in document order, with an
empty fetch trace (nothing further is requested), whatever the siteMapIndex
decode of the same document would give (the urlSet shape is checked first). -/
theorem urlsetShapeWins (env : Env) (fuel : Nat) (data : Bytes)
    (locs : List String)
    (hus : env.decodeUS data = some locs) (hne : locs ≠ []) :
    extractURLsFromXML env (fuel + 1) data = some (Except.ok locs, []) := by
  rw [extractURLsFromXML, usOK_some env data locs hus hne]

/-- Witness for urlsetShapeWins: a concrete environment whose urlSet decode
yields two locations even though its siteMapIndex decode also succeeds. -/
def envUS : Env := {
  http := fun _ => none,
  gunzip := fun _ => none,
  decodeUS := fun _ => some ["u1", "u2"],
  decodeSI := fun _ => some ["child"],
  parseDoc := fun _ => none }

theorem urlsetShapeWinsWitness :
    extractURLsFromXML envUS 1 [0] = some (Except.ok ["u1", "u2"], []) :=
  urlsetShapeWins envUS 0 [0] ["u1", "u2"] rfl (by simp)

/-- C5: when neither decode yields an entry, the resolver fails with the
unsupported format error (and requests nothing). -/
theorem unsupportedFormatFails (env : Env) (fuel : Nat) (data : Bytes)
    (hus : env.decodeUS data = none ∨ env.decodeUS data = some [])
    (hsi : env.decodeSI data = none ∨ env.decodeSI data = some []) :
    extractURLsFromXML env (fuel + 1) data =
      some (Except.error XMLError.unsupportedFormat, []) := by
  rw [extractURLsFromXML, usOK_none env data hus, siOK_none env data hsi]

/-- Witness for unsupportedFormatFails: arbitrary non-sitemap XML, both
decodes fail. -/
def envBad : Env := {
  http := fun _ => none,
  gunzip := fun _ => none,
  decodeUS := fun _ => none,
  decodeSI := fun _ => none,
  parseDoc := fun _ => none }

theorem unsupportedFormatFailsWitness :
    extractURLsFromXML envBad 1 [0] =
      some (Except.error XMLError.unsupportedFormat, []) :=
  unsupportedFormatFails envBad 0 [0] (Or.inl rfl) (Or.inl rfl)

/-- The child loop accumulates exactly the concatenation, in child order, of
each child's contribution. -/
theorem childLoop_flatten (env : Env) (fuel : Nat) :
    ∀ (sms acc tr urls tr2 : List String),
      childLoop env (extractURLsFromXML env fuel) sms acc tr = some (urls, tr2) →
      urls = acc ++ (sms.map (childContribution env fuel)).flatten := by
  intro sms
  induction sms with
  | nil =>
    intro acc tr urls tr2 h
    simp [childLoop] at h
    simp [h.1]
  | cons sm rest ih =>
    intro acc tr urls tr2 h
    rw [childLoop] at h
    cases hreq : makeRequest env sm with
    | error e =>
      rw [hreq] at h
      have := ih _ _ _ _ h
      simp [this, childContribution, hreq]
    | ok triple =>
      obtain ⟨body, ct, st⟩ := triple
      rw [hreq] at h
      dsimp only at h
      cases hex : extractURLsFromXML env fuel (sanitizeXML body) with
      | none => rw [hex] at h; cases h
      | some p =>
        obtain ⟨res, ctr⟩ := p
        rw [hex] at h
        cases res with
        | error e =>
          have := ih _ _ _ _ h
          simp [this, childContribution, hreq, hex]
        | ok childURLs =>
          have := ih _ _ _ _ h
          simp [this, childContribution, hreq, hex, List.append_assoc]

/-- C3: when the document resolves through the siteMapIndex branch, the
returned list is the concatenation, in child order, of every child's own
resolved list; a child whose fetch or parse fails contributes the empty list
and leaves the other children and the already-accumulated URLs intact. -/
theorem indexConcatsChildren (env : Env) (fuel : Nat) (data : Bytes)
    (sms urls tr : List String)
    (hus : env.decodeUS data = none ∨ env.decodeUS data = some [])
    (hsi : env.decodeSI data = some sms) (hne : sms ≠ [])
    (hrun : extractURLsFromXML env (fuel + 1) data = some (Except.ok urls, tr)) :
    urls = (sms.map (childContribution env fuel)).flatten := by
  rw [extractURLsFromXML, usOK_none env data hus, siOK_some env data sms hsi hne] at hrun
  dsimp only at hrun
  cases hcl : childLoop env (extractURLsFromXML env fuel) sms [] [] with
  | none => rw [hcl] at hrun; cases hrun
  | some p =>
    obtain ⟨u, t⟩ := p
    rw [hcl] at hrun
    dsimp only [Option.map] at hrun
    have hru := Option.some.inj hrun
    have hu : u = urls := Except.ok.inj (congrArg Prod.fst hru)
    subst hu
    simpa using childLoop_flatten env fuel sms [] [] u t hcl

/-- Witness environment for the siteMapIndex claims: the root bytes [0]
decode as an index with children "a" and "b"; the fetch of "a" fails, "b"
serves bytes [1] which decode as a urlSet with two locations. -/
def envSI : Env := {
  http := fun u => if u = "b" then some ([1], "", 200) else none,
  gunzip := fun _ => none,
  decodeUS := fun b => if b = [0] then none else some ["u1", "u2"],
  decodeSI := fun b => if b = [0] then some ["a", "b"] else none,
  parseDoc := fun _ => none }

theorem indexConcatsChildrenWitness :
    (["u1", "u2"] : List String) =
      (List.map (childContribution envSI 1) ["a", "b"]).flatten :=
  indexConcatsChildren envSI 1 [0] ["a", "b"] ["u1", "u2"] ["a", "b"]
    (Or.inl rfl) rfl (by simp) rfl

/-- The child loop returns the accumulator unchanged when every child fails
to fetch or to parse. -/
theorem childLoop_allFail (env : Env) (fuel : Nat) :
    ∀ (sms acc tr : List String),
      (∀ sm ∈ sms, childFails env fuel sm) →
      ∃ tr2, childLoop env (extractURLsFromXML env fuel) sms acc tr =
        some (acc, tr2) := by
  intro sms
  induction sms with
  | nil =>
    intro acc tr _
    exact ⟨tr, rfl⟩
  | cons sm rest ih =>
    intro acc tr hfail
    have hsm := hfail sm (by simp)
    have hrest : ∀ x ∈ rest, childFails env fuel x :=
      fun x hx => hfail x (by simp [hx])
    rcases hsm with ⟨e, he⟩ | ⟨body, ct, st, e, ctr, hm, hx⟩
    · rw [childLoop, he]
      exact ih acc (tr ++ [sm]) hrest
    · rw [childLoop, hm]
      dsimp only
      rw [hx]
      exact ih acc (tr ++ [sm] ++ ctr) hrest

/-- C9: a siteMapIndex all of whose children fail to fetch or to parse still
resolves successfully, with zero URLs and no error; a run rooted at such a
document then completes normally with an empty result list. -/
theorem allChildrenFailEmptyOk (env : Env) (fuel : Nat) (data : Bytes)
    (sms : List String)
    (hus : env.decodeUS data = none ∨ env.decodeUS data = some [])
    (hsi : env.decodeSI data = some sms) (hne : sms ≠ [])
    (hfail : ∀ sm ∈ sms, childFails env fuel sm) :
    (∃ tr, extractURLsFromXML env (fuel + 1) data = some (Except.ok [], tr)) ∧
    (∀ root raw ct st, makeRequest env root = Except.ok (raw, ct, st) →
      sanitizeXML raw = data →
      crawlSiteMap env (fuel + 1) root = some (Except.ok [])) := by
  obtain ⟨tr2, hcl⟩ := childLoop_allFail env fuel sms [] [] hfail
  have hex : extractURLsFromXML env (fuel + 1) data = some (Except.ok [], tr2) := by
    rw [extractURLsFromXML, usOK_none env data hus, siOK_some env data sms hsi hne]
    dsimp only
    rw [hcl]
    rfl
  refine ⟨⟨tr2, hex⟩, ?_⟩
  intro root raw ct st hroot hsan
  rw [crawlSiteMap, hroot]
  dsimp only
  rw [hsan, hex]
  rfl

/-- Witness environment for C9: like envSI, but the urlSet decode of the
child body [1] fails too, so child "a" fails to fetch and child "b" fails to
parse; "root" serves the index bytes [0]. -/
def envSIFail : Env := {
  http := fun u =>
    if u = "b" then some ([1], "", 200)
    else if u = "root" then some ([0], "", 200)
    else none,
  gunzip := fun _ => none,
  decodeUS := fun _ => none,
  decodeSI := fun b => if b = [0] then some ["a", "b"] else none,
  parseDoc := fun _ => none }

theorem allChildrenFailEmptyOkWitness :
    crawlSiteMap envSIFail 2 "root" = some (Except.ok []) := by
  refine (allChildrenFailEmptyOk envSIFail 1 [0] ["a", "b"] (Or.inl rfl) rfl
    (by simp) ?_).2 "root" [0] "" 200 rfl rfl
  intro sm hsm
  have : sm = "a" ∨ sm = "b" := by simpa using hsm
  rcases this with h | h
  · subst h
    exact Or.inl ⟨FetchError.network, rfl⟩
  · subst h
    exact Or.inr ⟨[1], "", 200, XMLError.unsupportedFormat, [], rfl, rfl⟩

/-!
## Scheduler theorems (claims C6, C8, C10) and transport theorem (claim C7)
-/

theorem workerRun_filterMap (env : Env) (jobs : List String) :
    workerRun env jobs = jobs.filterMap (processURL env) := by
  induction jobs with
  | nil => rfl
  | cons u rest ih =>
    rw [workerRun]
    cases hp : processURL env u with
    | none => simp [List.filterMap_cons, hp, ih]
    | some r => simp [List.filterMap_cons, hp, ih]

theorem processURL_none_iff (env : Env) (url : String) :
    processURL env url = none ↔ ∃ e, makeRequest env url = Except.error e := by
  cases hreq : makeRequest env url with
  | error e =>
    rw [processURL, hreq]
    simp
  | ok t =>
    obtain ⟨body, ct, st⟩ := t
    rw [processURL, hreq]
    dsimp only
    constructor
    · intro h
      by_cases hct : strContains ct "text/html" = true
      · rw [if_pos hct] at h
        cases h
      · rw [if_neg hct] at h
        cases h
    · rintro ⟨e, he⟩
      cases he

theorem processURL_ok (env : Env) (url : String) (body : Bytes) (ct : String)
    (st : Nat) (h : makeRequest env url = Except.ok (body, ct, st)) :
    ∃ r, processURL env url = some r ∧ r.url = url := by
  rw [processURL, h]
  dsimp only
  by_cases hct : strContains ct "text/html" = true
  · exact ⟨_, by rw [if_pos hct], rfl⟩
  · exact ⟨_, by rw [if_neg hct], rfl⟩

/-- C6: a worker emits its results by mapping processURL over its jobs in
order, where processURL is none exactly when makeRequest fails; so a URL
whose fetch fails contributes no CrawlResult (silent drop), and every URL
whose fetch succeeds contributes exactly one CrawlResult, carrying that URL. -/
theorem workerDropsFailedFetches (env : Env) (jobs : List String) :
    workerRun env jobs = jobs.filterMap (processURL env) ∧
    (∀ url, processURL env url = none ↔ ∃ e, makeRequest env url = Except.error e) ∧
    (∀ url body ct st, makeRequest env url = Except.ok (body, ct, st) →
      ∃ r, processURL env url = some r ∧ r.url = url) :=
  ⟨workerRun_filterMap env jobs, fun url => processURL_none_iff env url,
   fun url body ct st h => processURL_ok env url body ct st h⟩

/-- Witness environment: the fetch of "bad" fails at the transport level,
"good" serves a non-HTML page. -/
def envDown : Env := {
  http := fun u => if u = "good" then some ([0], "text/plain", 200) else none,
  gunzip := fun _ => none,
  decodeUS := fun _ => none,
  decodeSI := fun _ => none,
  parseDoc := fun _ => none }

theorem workerDropsFailedFetchesWitness :
    processURL envDown "bad" = none ∧
    workerRun envDown ["bad", "good"] =
      ["bad", "good"].filterMap (processURL envDown) :=
  ⟨((workerDropsFailedFetches envDown ["bad", "good"]).2.1 "bad").mpr
      ⟨FetchError.network, rfl⟩,
   (workerDropsFailedFetches envDown ["bad", "good"]).1⟩

/-- The result the worker emits for a completed fetch, as the spec describes
it: when the Content-Type contains "text/html" the metadata extracted from
the body, otherwise the status with empty metadata fields.  The status code
is never inspected. -/
def expectedResult (env : Env) (url : String) (body : Bytes) (ct : String)
    (st : Nat) : CrawlResult :=
  if strContains ct "text/html" = true then
    { url := url, status := st, title := (parseHTML env body).1,
      metaDescription := (parseHTML env body).2.1,
      canonical := (parseHTML env body).2.2 }
  else
    { url := url, status := st, title := "", metaDescription := "",
      canonical := "" }

/-- C10 (amended): every fetch that completes without error - the response
received and, for ".gz" URLs, the body decompressed - emits exactly one
CrawlResult whatever the status code (404, 500, ... are not filtered): with
metadata extracted from the body when the Content-Type contains "text/html",
with the bare status and empty metadata otherwise. -/
theorem resultRegardlessOfStatus (env : Env) (url : String) (body : Bytes)
    (ct : String) (st : Nat)
    (h : makeRequest env url = Except.ok (body, ct, st)) :
    processURL env url = some (expectedResult env url body ct st) := by
  rw [processURL, h, expectedResult]
  dsimp only
  by_cases hct : strContains ct "text/html" = true
  · rw [if_pos hct, if_pos hct]
  · rw [if_neg hct, if_neg hct]

/-- Witness environment: an HTML error page with status 404. -/
def envPage : Env := {
  http := fun _ => some ([0], "text/html", 404),
  gunzip := fun _ => none,
  decodeUS := fun _ => none,
  decodeSI := fun _ => none,
  parseDoc := fun _ => none }

theorem resultRegardlessOfStatusWitness :
    processURL envPage "p" = some (expectedResult envPage "p" [0] "text/html" 404) :=
  resultRegardlessOfStatus envPage "p" [0] "text/html" 404 rfl

/-- Counterexample environment for C10 as stated: every URL gets an HTTP
response, but the body is not valid gzip. -/
def envGzDrop : Env := {
  http := fun _ => some ([7], "text/html", 200),
  gunzip := fun _ => none,
  decodeUS := fun _ => none,
  decodeSI := fun _ => none,
  parseDoc := fun _ => none }

/-- C10 counterexample: the fetch of "page.gz" receives an HTTP response
(status 200, Content-Type text/html), yet no CrawlResult is emitted, because
the gzip decompression triggered by the ".gz" suffix fails and the worker
drops the URL. -/
theorem gzDecodeDropCex :
    (envGzDrop.http "page.gz").isSome = true ∧
    processURL envGzDrop "page.gz" = none :=
  ⟨rfl, rfl⟩

/-- Whether the first event of a trace is the politeness sleep. -/
def headSleep : List WEvent → Bool
  | [] => false
  | WEvent.sleep :: _ => true
  | WEvent.fetch _ :: _ => false
  | WEvent.emit _ _ :: _ => false

/-- Claim C8 as stated: after every emitted result the very next thing the
worker does is sleep the politeness delay (before requesting its next job). -/
def pausesAfterEveryPage : List WEvent → Bool
  | [] => true
  | WEvent.fetch _ :: rest => pausesAfterEveryPage rest
  | WEvent.sleep :: rest => pausesAfterEveryPage rest
  | WEvent.emit _ _ :: rest => headSleep rest && pausesAfterEveryPage rest

/-- The pause discipline the code actually implements: a sleep immediately
follows an emitted result exactly when the response Content-Type contained
"text/html". -/
def pausesAfterHTMLPages : List WEvent → Bool
  | [] => true
  | WEvent.fetch _ :: rest => pausesAfterHTMLPages rest
  | WEvent.sleep :: rest => pausesAfterHTMLPages rest
  | WEvent.emit ct _ :: rest =>
    (if strContains ct "text/html" = true then headSleep rest else !headSleep rest)
      && pausesAfterHTMLPages rest

theorem headSleep_trace (env : Env) (l : List String) :
    headSleep (workerTrace env l) = false := by
  cases l with
  | nil => rfl
  | cons u rest => rw [workerTrace]; rfl

/-- C8 (amended): a worker sleeps the politeness delay after completing a
page exactly when the response Content-Type contains "text/html"; after a
completed non-HTML page it requests its next job with no pause. -/
theorem politenessAfterHTMLOnly (env : Env) (jobs : List String) :
    pausesAfterHTMLPages (workerTrace env jobs) = true := by
  induction jobs with
  | nil => rfl
  | cons u rest ih =>
    rw [workerTrace]
    cases hreq : makeRequest env u with
    | error e => simpa [pausesAfterHTMLPages] using ih
    | ok t =>
      obtain ⟨body, ct, st⟩ := t
      by_cases hct : strContains ct "text/html" = true
      · simp [hct, pausesAfterHTMLPages, headSleep, ih]
      · simp [hct, pausesAfterHTMLPages, ih, headSleep_trace]

/-- Counterexample environment for C8 as stated: every page is served with a
non-HTML content type. -/
def envPlain : Env := {
  http := fun _ => some ([0], "text/plain", 200),
  gunzip := fun _ => none,
  decodeUS := fun _ => none,
  decodeSI := fun _ => none,
  parseDoc := fun _ => none }

/-- C8 counterexample: with two non-HTML pages the worker completes page "a"
(a result is emitted) and immediately fetches page "b" with no sleep in
between - the politeness pause is skipped for non-HTML pages. -/
theorem politenessEveryPageCex :
    pausesAfterEveryPage (workerTrace envPlain ["a", "b"]) = false := rfl

/-- C7: gzip handling is transparent and keyed on the ".gz" URL suffix: if a
".gz" URL serves the gzip compression of some content (env.gunzip recovers
the content from the raw body) and a non-".gz" URL serves the same content
uncompressed, resolving the two URLs gives identical outcomes - same
flattened URL list, same error, same child fetch trace; and a fetch of a
".gz" URL whose body fails gzip decompression yields the decode error. -/
theorem gzipTransparentResolve (env : Env) (fuel : Nat) (ugz uplain : String)
    (g content : Bytes) (ct1 ct2 : String) (st1 st2 : Nat)
    (hgz : hasSuffixGz ugz = true) (h1 : env.http ugz = some (g, ct1, st1))
    (hgun : env.gunzip g = some content)
    (hplain : hasSuffixGz uplain = false)
    (h2 : env.http uplain = some (content, ct2, st2)) :
    resolveURL env fuel ugz = resolveURL env fuel uplain ∧
    (∀ url body ct st, hasSuffixGz url = true → env.http url = some (body, ct, st) →
      env.gunzip body = none →
      makeRequest env url = Except.error FetchError.decode) := by
  constructor
  · have hm1 : makeRequest env ugz = Except.ok (content, ct1, st1) := by
      rw [makeRequest, h1]
      dsimp only
      rw [if_pos hgz, hgun]
    have hm2 : makeRequest env uplain = Except.ok (content, ct2, st2) := by
      rw [makeRequest, h2]
      dsimp only
      rw [if_neg (by simp [hplain])]
    rw [resolveURL, resolveURL, hm1, hm2]
  · intro url body ct st hsuf hh hgn
    rw [makeRequest, hh]
    dsimp only
    rw [if_pos hsuf, hgn]

/-- Witness environment: "s.gz" serves gzipped bytes [9] that decompress to
[1], "s" serves [1] directly, "bad.gz" serves bytes that are not valid gzip;
any body decodes as a one-location urlSet. -/
def envGzW : Env := {
  http := fun u =>
    if u = "s.gz" then some ([9], "xml", 200)
    else if u = "s" then some ([1], "xml", 200)
    else if u = "bad.gz" then some ([7], "xml", 200)
    else none,
  gunzip := fun b => if b = [9] then some [1] else none,
  decodeUS := fun _ => some ["u"],
  decodeSI := fun _ => none,
  parseDoc := fun _ => none }

theorem gzipTransparentResolveWitness :
    resolveURL envGzW 1 "s.gz" = resolveURL envGzW 1 "s" ∧
    makeRequest envGzW "bad.gz" = Except.error FetchError.decode :=
  ⟨(gzipTransparentResolve envGzW 1 "s.gz" "s" [9] [1] "xml" "xml" 200 200
      rfl rfl rfl rfl rfl).1,
   (gzipTransparentResolve envGzW 1 "s.gz" "s" [9] [1] "xml" "xml" 200 200
      rfl rfl rfl rfl rfl).2 "bad.gz" [7] "xml" 200 rfl rfl rfl⟩

/-!
## MetadataExtractor theorems (claim C1)

The walk closure of parseHTML overwrites its three slots at every matching
element it passes, so each returned component is the write of the LAST
matching element in depth-first preorder, not the first.  The collectors
below list, in preorder, the value each matching element writes; lastD and
headD pick the last and the first of them.
-/

def lastD : List String → String → String
  | [], d => d
  | x :: xs, _ => lastD xs x

def headD : List String → String → String
  | [], d => d
  | x :: _, _ => x

theorem lastD_append (l l2 : List String) (d : String) :
    lastD (l ++ l2) d = lastD l2 (lastD l d) := by
  induction l generalizing d with
  | nil => rfl
  | cons x xs ih => simp [lastD, ih]

/-- The write of a title element: the trimmed Data of its first child, when
it has one. -/
def titleHit (ch : HForest) : Option String :=
  match ch with
  | HForest.nil => none
  | HForest.cons c _ => some (trimSpace c.getData)

/-- The write of a meta element: the scanned content value, when the
attribute scan found name="description". -/
def metaHit (attrs : List (String × String)) : Option String :=
  let nc := metaNameContent attrs
  if nc.1 = "description" then some nc.2 else none

/-- The last href attribute value of an attribute list, if any. -/
def lastHref (attrs : List (String × String)) : Option String :=
  attrs.foldl (fun acc b => if b.1 == "href" then some b.2 else acc) none

/-- The write of a link element: its last href value, when it carries a
rel="canonical" attribute and at least one href attribute. -/
def linkHit (attrs : List (String × String)) : Option String :=
  if attrs.any (fun a => a.1 == "rel" && a.2 == "canonical") = true then
    lastHref attrs
  else none

/-- The writes of one node (title, description, canonical slots). -/
def nodeHits (e : Bool) (d : String) (attrs : List (String × String))
    (ch : HForest) : Option String × Option String × Option String :=
  if e = true then
    if d = "title" then (titleHit ch, none, none)
    else if d = "meta" then (none, metaHit attrs, none)
    else if d = "link" then (none, none, linkHit attrs)
    else (none, none, none)
  else (none, none, none)

def hcat (w1 w2 : List String × List String × List String) :
    List String × List String × List String :=
  (w1.1 ++ w2.1, w1.2.1 ++ w2.2.1, w1.2.2 ++ w2.2.2)

def otriple (w : Option String × Option String × Option String) :
    List String × List String × List String :=
  (w.1.toList, w.2.1.toList, w.2.2.toList)

mutual
/-- All writes in the subtree rooted at a node, in depth-first preorder. -/
def hitsNode : HNode → List String × List String × List String
  | HNode.node e d a ch => hcat (otriple (nodeHits e d a ch)) (hitsForest ch)
def hitsForest : HForest → List String × List String × List String
  | HForest.nil => ([], [], [])
  | HForest.cons n t => hcat (hitsNode n) (hitsForest t)
end

def applyHits (st : String × String × String)
    (w : List String × List String × List String) : String × String × String :=
  (lastD w.1 st.1, lastD w.2.1 st.2.1, lastD w.2.2 st.2.2)

def applyHit (st : String × String × String)
    (w : Option String × Option String × Option String) :
    String × String × String :=
  (w.1.getD st.1, w.2.1.getD st.2.1, w.2.2.getD st.2.2)

theorem applyHits_hcat (st : String × String × String)
    (w1 w2 : List String × List String × List String) :
    applyHits (applyHits st w1) w2 = applyHits st (hcat w1 w2) := by
  simp [applyHits, hcat, lastD_append]

theorem applyHits_otriple (st : String × String × String)
    (w : Option String × Option String × Option String)
    (rest : List String × List String × List String) :
    applyHits (applyHit st w) rest = applyHits st (hcat (otriple w) rest) := by
  obtain ⟨o1, o2, o3⟩ := w
  cases o1 <;> cases o2 <;> cases o3 <;>
    simp [applyHits, applyHit, hcat, otriple, lastD]

theorem hrefFold (l : List (String × String)) :
    ∀ (c : String) (o : Option String),
      l.foldl (fun c2 b => if b.1 == "href" then b.2 else c2) (o.getD c) =
        (l.foldl (fun acc b => if b.1 == "href" then some b.2 else acc) o).getD c := by
  induction l with
  | nil => intro c o; rfl
  | cons x xs ih =>
    intro c o
    rw [List.foldl_cons, List.foldl_cons]
    by_cases hx : (x.1 == "href") = true
    · rw [if_pos hx, if_pos hx]
      exact ih c (some x.2)
    · rw [if_neg hx, if_neg hx]
      exact ih c o

theorem hrefFold_none (l : List (String × String)) (c : String) :
    l.foldl (fun c2 b => if b.1 == "href" then b.2 else c2) c =
      (lastHref l).getD c := by
  have := hrefFold l c none
  simpa [lastHref] using this

theorem linkLoop_aux (attrs : List (String × String)) :
    ∀ (l : List (String × String)) (c : String),
      l.foldl (fun c a =>
        if a.1 == "rel" && a.2 == "canonical" then
          attrs.foldl (fun c2 b => if b.1 == "href" then b.2 else c2) c
        else c) c =
      if l.any (fun a => a.1 == "rel" && a.2 == "canonical") = true then
        (lastHref attrs).getD c
      else c := by
  intro l
  induction l with
  | nil => intro c; simp
  | cons x xs ih =>
    intro c
    rw [List.foldl_cons]
    by_cases hx : (x.1 == "rel" && x.2 == "canonical") = true
    · rw [if_pos hx, hrefFold_none attrs c, ih ((lastHref attrs).getD c)]
      have hidem : (lastHref attrs).getD ((lastHref attrs).getD c) =
          (lastHref attrs).getD c := by
        cases lastHref attrs <;> rfl
      have hany : ((x :: xs).any (fun a => a.1 == "rel" && a.2 == "canonical")) = true := by
        simp [List.any_cons, hx]
      rw [if_pos hany]
      by_cases h2 : (xs.any (fun a => a.1 == "rel" && a.2 == "canonical")) = true
      · rw [if_pos h2, hidem]
      · rw [if_neg h2]
    · rw [if_neg hx, ih c]
      have hany : ((x :: xs).any (fun a => a.1 == "rel" && a.2 == "canonical")) =
          (xs.any (fun a => a.1 == "rel" && a.2 == "canonical")) := by
        simp [List.any_cons, hx]
      rw [hany]

theorem linkLoop_hit (attrs : List (String × String)) (c : String) :
    linkLoop attrs c = (linkHit attrs).getD c := by
  rw [linkLoop, linkLoop_aux attrs attrs c, linkHit]
  by_cases hany : (attrs.any (fun a => a.1 == "rel" && a.2 == "canonical")) = true
  · rw [if_pos hany, if_pos hany]
  · rw [if_neg hany, if_neg hany]
    rfl

theorem visitNode_hit (st : String × String × String) (e : Bool) (d : String)
    (attrs : List (String × String)) (ch : HForest) :
    visitNode st e d attrs ch = applyHit st (nodeHits e d attrs ch) := by
  rw [visitNode.eq_def, nodeHits]
  cases e with
  | false => simp [applyHit]
  | true =>
    simp only [if_pos rfl]
    by_cases hd : d = "title"
    · rw [if_pos hd, if_pos hd]
      cases ch with
      | nil => simp [titleHit, applyHit]
      | cons c t => simp [titleHit, applyHit]
    · rw [if_neg hd, if_neg hd]
      by_cases hm : d = "meta"
      · rw [if_pos hm, if_pos hm]
        by_cases hdesc : (metaNameContent attrs).1 = "description"
        · simp [metaHit, hdesc, applyHit]
        · simp [metaHit, hdesc, applyHit]
      · rw [if_neg hm, if_neg hm]
        by_cases hl : d = "link"
        · rw [if_pos hl, if_pos hl]
          simp [applyHit, linkLoop_hit]
        · rw [if_neg hl, if_neg hl]
          simp [applyHit]

mutual
theorem walkNode_hits : ∀ (n : HNode) (st : String × String × String),
    walkNode st n = applyHits st (hitsNode n)
  | HNode.node e d a ch, st => by
    rw [walkNode, walkForest_hits ch (visitNode st e d a ch), visitNode_hit,
      applyHits_otriple, hitsNode]
theorem walkForest_hits : ∀ (f : HForest) (st : String × String × String),
    walkForest st f = applyHits st (hitsForest f)
  | HForest.nil, st => by
    rw [walkForest, hitsForest]
    rfl
  | HForest.cons n t, st => by
    rw [walkForest, walkForest_hits t (walkNode st n), walkNode_hits n st,
      applyHits_hcat, hitsForest]
end

/-- C1 (amended): for every parsed document, parseHTML returns for each
component the write of the LAST matching element in depth-first preorder -
the trimmed first-child Data of the last title element that has a child, the
scanned content value of the last meta element whose attribute scan sets
name="description", and the last href of the last link element carrying
rel="canonical" and an href - and the empty string when no element matches. -/
theorem parseHTMLKeepsLastMatch (env : Env) (body : Bytes) (doc : HNode)
    (h : env.parseDoc body = some doc) :
    parseHTML env body =
      (lastD (hitsNode doc).1 "", lastD (hitsNode doc).2.1 "",
       lastD (hitsNode doc).2.2 "") := by
  rw [parseHTML, h]
  dsimp only
  rw [walkNode_hits doc ("", "", "")]
  rfl

/-- A document whose head holds two title elements, with texts "A" and "B";
the HTML parser produces such trees for documents with repeated titles. -/
def docTwoTitles : HNode :=
  HNode.node false "" []
    (HForest.cons
      (HNode.node true "title" []
        (HForest.cons (HNode.node false "A" [] HForest.nil) HForest.nil))
      (HForest.cons
        (HNode.node true "title" []
          (HForest.cons (HNode.node false "B" [] HForest.nil) HForest.nil))
        HForest.nil))

def envTwoTitles : Env := {
  http := fun _ => some ([0], "text/html", 200),
  gunzip := fun _ => none,
  decodeUS := fun _ => none,
  decodeSI := fun _ => none,
  parseDoc := fun _ => some docTwoTitles }

/-- C1 counterexample: on a document with two title elements the extractor
returns the text of the SECOND title ("B"), while the claimed "first
matching element" reading yields the first ("A"); the claimed triple differs
from the extractor's output on this input. -/
theorem parseHTMLFirstMatchCex :
    parseHTML envTwoTitles [] = ("B", "", "") ∧
    headD (hitsNode docTwoTitles).1 "" = "A" ∧
    parseHTML envTwoTitles [] ≠
      (headD (hitsNode docTwoTitles).1 "", headD (hitsNode docTwoTitles).2.1 "",
       headD (hitsNode docTwoTitles).2.2 "") := by
  refine ⟨rfl, rfl, ?_⟩
  decide

theorem parseHTMLKeepsLastMatchWitness :
    parseHTML envTwoTitles [] =
      (lastD (hitsNode docTwoTitles).1 "", lastD (hitsNode docTwoTitles).2.1 "",
       lastD (hitsNode docTwoTitles).2.2 "") :=
  parseHTMLKeepsLastMatch envTwoTitles [] docTwoTitles rfl

end Crawler
